import Mathlib

/-!
Shallow embedding of the Collections feature (superset/collections):
the `SpCollection` data model, the cycle check from models.py, and the
DAO operations from dao.py (get_tree, update_collection, delete_collection,
add/remove/get items, and the permission stubs), together with theorems
about them.

Collections are modelled as a list of rows; the three item-link tables and
the item catalogs (dashboards, charts, datasets) as lists.  Errors raised
by the Python code are modelled with an error type; an operation that can
raise returns the (possibly unchanged) store together with an optional
error, mirroring the fact that a raise before `db.session.commit()` leaves
the persisted store unchanged.
-/

namespace Collections

/-- A row of the `sp_collection` table (models.py, `SpCollection`).
`item_count` is an `Int`, as in Python, so that the `max(0, item_count - 1)`
floor in `remove_item_from_collection` is meaningful. -/

structure Collection where
  id : Nat
  uuid : Nat
  name : String
  slug : String
  description : Option String
  parent_id : Option Nat
  is_official : Bool
  item_count : Int
deriving Repr, DecidableEq

/-- A row of one of the three link tables (`sp_collection_dashboard`,
`sp_collection_chart`, `sp_collection_dataset`). -/

structure Link where
  collection_id : Nat
  item_id : Nat
deriving Repr, DecidableEq

/-- Item types: `CollectionItemType` from constants.py. -/

inductive ItemType where
  | dashboard
  | chart
  | dataset
deriving Repr, DecidableEq

/-- The error taxonomy of exceptions.py. -/

inductive CErr where
  | notFound
  | slugExists
  | cycleDetected
  | itemAlreadyExists
  | itemNotFound
  | validationError
deriving Repr, DecidableEq

/-- Embeds `CollectionDAO.find_by_id` (BaseDAO query by primary key): the first
row whose id matches. -/

def find_by_id (store : List Collection) (cid : Nat) : Option Collection :=
  store.find? (fun c => c.id == cid)

/-- Embeds `CollectionDAO.find_by_slug`. -/

def find_by_slug (store : List Collection) (s : String) : Option Collection :=
  store.find? (fun c => c.slug == s)

/-- The set of ids present in the store. -/

def storeIds (store : List Collection) : Finset Nat :=
  (store.map (fun c => c.id)).toFinset

/-- One step of the upward walk in `has_cycle_with_parent` (models.py):
`parent = CollectionDAO.find_by_id(current_id); current_id = parent.parent_id
if parent else None`.  A missing row and a null parent both yield `none`. -/

def parentStep (store : List Collection) (x : Nat) : Option Nat :=
  match find_by_id store x with
  | none => none
  | some p => p.parent_id

/-- The upward walk of `SpCollection.has_cycle_with_parent` (models.py):
`while current_id:` with a visited set; a revisited id or reaching
`selfId` is a cycle; a falsy (`0`/`None`) current id or a chain that runs
off the store (missing row or null parent) ends the walk with no cycle.
Terminates because every continuing iteration inserts into `visited` an id
that is present in the store. -/

def walkParents (store : List Collection) (selfId : Nat)
    (visited : Finset Nat) (cur : Nat) : Bool :=
  if cur = 0 then false
  else if cur ∈ visited then true
  else if cur = selfId then true
  else
    match h : parentStep store cur with
    | none => false
    | some q => walkParents store selfId (insert cur visited) q
termination_by (storeIds store \ visited).card
decreasing_by
  rename_i hv _
  have hmem : cur ∈ storeIds store := by
    revert h
    unfold parentStep
    cases hf : find_by_id store cur with
    | none => intro h; cases h
    | some p =>
      intro h
      have hpmem : p ∈ store := List.mem_of_find?_eq_some hf
      have hpid : p.id = cur := by simpa using List.find?_some hf
      simp only [storeIds, List.mem_toFinset, List.mem_map]
      exact ⟨p, hpmem, hpid⟩
  apply Finset.card_lt_card
  constructor
  · intro x hx
    rcases Finset.mem_sdiff.mp hx with ⟨hx1, hx2⟩
    exact Finset.mem_sdiff.mpr ⟨hx1, fun hvv => hx2 (Finset.mem_insert_of_mem hvv)⟩
  · intro hcon
    have hcur : cur ∈ storeIds store \ visited := Finset.mem_sdiff.mpr ⟨hmem, hv⟩
    have := hcon hcur
    rcases Finset.mem_sdiff.mp this with ⟨_, h2⟩
    exact h2 (Finset.mem_insert_self cur visited)

/-- The loop of `has_cycle_with_parent` with an explicit iteration budget:
`none` means the budget was exhausted with the loop still running.  Used to
state that the loop always terminates within `|storeIds| + 1` iterations. -/

def walkParentsFuel (store : List Collection) (selfId : Nat) :
    Nat → Finset Nat → Nat → Option Bool
  | 0, _, _ => none
  | fuel + 1, visited, cur =>
    if cur = 0 then some false
    else if cur ∈ visited then some true
    else if cur = selfId then some true
    else
      match parentStep store cur with
      | none => some false
      | some q => walkParentsFuel store selfId fuel (insert cur visited) q

/-- Embeds `SpCollection.has_cycle_with_parent` (models.py lines 193-217). -/

def has_cycle_with_parent (store : List Collection) (c : Collection)
    (pid : Nat) : Bool :=
  if pid = c.id then true
  else walkParents store c.id ∅ pid

/-- Embeds `SpCollection.can_be_moved_to` (models.py lines 219-227). -/

def can_be_moved_to (store : List Collection) (c : Collection)
    (newParent : Option Nat) : Bool :=
  match newParent with
  | none => true
  | some pid =>
    if pid = c.id then false
    else ! has_cycle_with_parent store c pid

/-- One step of the parent chain as the walk follows it: a falsy (`0`)
id ends the chain, otherwise the row's parent pointer is followed. -/

def chainStep (store : List Collection) (x : Nat) : Option Nat :=
  if x = 0 then none else parentStep store x

/-- Iterates `n` steps up the parent chain from `x`. -/

def chainN (store : List Collection) : Nat → Nat → Option Nat
  | 0, x => some x
  | n + 1, x =>
    match chainStep store x with
    | none => none
    | some y => chainN store n y

/-- Holds when `a` lies on the parent chain starting at `x` (possibly `a = x`). -/

def isAncestor (store : List Collection) (a x : Nat) : Prop :=
  ∃ n, chainN store n x = some a

/-- Python `str.strip()`: drop leading and trailing whitespace. -/

def pyStrip (s : String) : String :=
  String.mk
    (((s.toList.dropWhile Char.isWhitespace).reverse.dropWhile
      Char.isWhitespace).reverse)

/-- Python `str.lower()`. -/

def pyLower (s : String) : String :=
  String.mk (s.toList.map Char.toLower)

/-- Python `len` on a string: its number of characters. -/

def pyLen (s : String) : Nat :=
  s.toList.length

/-- Characters allowed by the slug pattern `^[a-z0-9-_]+$`. -/

def validSlugChar (ch : Char) : Bool :=
  (decide ('a' ≤ ch) && decide (ch ≤ 'z')) || ch.isDigit || ch == '-' || ch == '_'

/-- Assigning `name` runs `SpCollection.validate_name`: reject empty or
oversize names, store the trimmed name. -/

def applyName (c : Collection) : Option String → Except CErr Collection
  | none => .ok c
  | some name =>
    if pyStrip name = "" then .error .validationError
    else if pyLen (pyStrip name) > 255 then .error .validationError
    else .ok { c with name := pyStrip name }

/-- Assigning `slug` runs `SpCollection.validate_slug`: reject empty,
badly-charactered or oversize slugs, store the trimmed lower-cased slug. -/

def applySlug (c : Collection) : Option String → Except CErr Collection
  | none => .ok c
  | some slug =>
    if pyStrip slug = "" then .error .validationError
    else if ! ((pyLower (pyStrip slug)).toList.all validSlugChar) then
      .error .validationError
    else if pyLen (pyLower (pyStrip slug)) > 255 then .error .validationError
    else .ok { c with slug := pyLower (pyStrip slug) }

/-- Assigning `description` runs `SpCollection.validate_description`. -/

def applyDescription (c : Collection) : Option String → Except CErr Collection
  | none => .ok c
  | some d =>
    if pyLen d > 1000 then .error .validationError
    else .ok { c with description := some d }

/-- Assigning `parent_id` runs `SpCollection.validate_parent_id` (a persisted
row always has an id, so the self-parent guard is active). -/

def applyParent (c : Collection) : Option Nat → Except CErr Collection
  | none => .ok c
  | some p =>
    if p = c.id then .error .validationError
    else .ok { c with parent_id := some p }

/-- Assigning `is_official` (no validator). -/

def applyOfficial (c : Collection) : Option Bool → Except CErr Collection
  | none => .ok c
  | some b => .ok { c with is_official := b }

/-- The field-update block of `CollectionDAO.update_collection` (dao.py
lines 235-245): each supplied field is assigned in turn, the model
validators firing on assignment. -/

def applyUpdates (c : Collection) (name slug description : Option String)
    (parent_id : Option Nat) (is_official : Option Bool) :
    Except CErr Collection :=
  match applyName c name with
  | .error e => .error e
  | .ok c1 =>
    match applySlug c1 slug with
    | .error e => .error e
    | .ok c2 =>
      match applyDescription c2 description with
      | .error e => .error e
      | .ok c3 =>
        match applyParent c3 parent_id with
        | .error e => .error e
        | .ok c4 => applyOfficial c4 is_official

/-- Replace the first row with the given id (the row object fetched by
`find_by_id` is the one mutated and committed). -/

def replaceFirstById : List Collection → Nat → Collection → List Collection
  | [], _, _ => []
  | x :: xs, cid, c2 =>
    if x.id = cid then c2 :: xs else x :: replaceFirstById xs cid c2

/-- The slug-uniqueness pre-check of `update_collection` (dao.py lines
224-228): `if slug and slug != collection.slug` then a different existing
row with that slug is a conflict. -/

def slugConflictCheck (store : List Collection) (cid : Nat) (c : Collection)
    (slug : Option String) : Bool :=
  match slug with
  | none => false
  | some s =>
    if s ≠ "" ∧ s ≠ c.slug then
      match find_by_slug store s with
      | none => false
      | some existing => existing.id != cid
    else false

/-- The parent-cycle pre-check of `update_collection` (dao.py lines
230-233): only a supplied, changed, truthy parent id is validated with
`can_be_moved_to`. -/

def parentCycleCheck (store : List Collection) (c : Collection)
    (parent_id : Option Nat) : Bool :=
  match parent_id with
  | none => false
  | some p =>
    if some p ≠ c.parent_id then
      if p ≠ 0 then ! can_be_moved_to store c (some p) else false
    else false

/-- Embeds `CollectionDAO.update_collection` (dao.py lines 208-257).  A raise
happens before `db.session.commit()`, so an error leaves the persisted
store unchanged; the final `store.any` check is the database unique
constraint on `slug`, whose violation at commit is rolled back and
translated to `SlugExists`. -/

def update_collection (store : List Collection) (cid : Nat)
    (name slug description : Option String) (parent_id : Option Nat)
    (is_official : Option Bool) : List Collection × Option CErr :=
  match find_by_id store cid with
  | none => (store, some .notFound)
  | some c =>
    if slugConflictCheck store cid c slug then (store, some .slugExists)
    else if parentCycleCheck store c parent_id then (store, some .cycleDetected)
    else
      match applyUpdates c name slug description parent_id is_official with
      | .error e => (store, some e)
      | .ok c2 =>
        if store.any (fun x => x.id != cid && x.slug == c2.slug) then
          (store, some .slugExists)
        else (replaceFirstById store cid c2, none)

/-- The persisted state seen by the membership operations: the collection
table, the three link tables, and the externally-owned item catalogs
(ids of dashboards, charts and datasets that still exist). -/

structure DB where
  collections : List Collection
  dashLinks : List Link
  chartLinks : List Link
  datasetLinks : List Link
  dashboards : List Nat
  charts : List Nat
  datasets : List Nat
deriving Repr, DecidableEq

/-- The link table for an item type. -/

def linksOf (db : DB) : ItemType → List Link
  | .dashboard => db.dashLinks
  | .chart => db.chartLinks
  | .dataset => db.datasetLinks

/-- Replace the link table for an item type. -/

def setLinks (db : DB) : ItemType → List Link → DB
  | .dashboard, l => { db with dashLinks := l }
  | .chart, l => { db with chartLinks := l }
  | .dataset, l => { db with datasetLinks := l }

/-- Embeds `CollectionDAO.item_exists_in_collection` (dao.py lines 451-487): an
exists-query on the matching link table. -/

def item_exists_in_collection (db : DB) (cid : Nat) (ty : ItemType)
    (iid : Nat) : Bool :=
  (linksOf db ty).any (fun l => l.collection_id == cid && l.item_id == iid)

/-- Replace the collection table of a state. -/

def withCollections (db : DB) (cs : List Collection) : DB :=
  { db with collections := cs }

/-- Embeds `CollectionDAO.add_item_to_collection` (dao.py lines 291-370): check
the collection exists, check the link does not, then insert the link row
and increment the cached `item_count`, committing both together. -/

def add_item_to_collection (db : DB) (cid : Nat) (ty : ItemType)
    (iid : Nat) : DB × Option CErr :=
  match find_by_id db.collections cid with
  | none => (db, some .notFound)
  | some c =>
    if item_exists_in_collection db cid ty iid then
      (db, some .itemAlreadyExists)
    else
      (withCollections (setLinks db ty (linksOf db ty ++ [⟨cid, iid⟩]))
        (replaceFirstById db.collections cid
          { c with item_count := c.item_count + 1 }), none)

/-- Embeds `CollectionDAO.remove_item_from_collection` (dao.py lines 372-449):
check the collection exists, find the first matching link row, delete it
and decrement the cached `item_count`, floored at 0, committing both
together. -/

def remove_item_from_collection (db : DB) (cid : Nat) (ty : ItemType)
    (iid : Nat) : DB × Option CErr :=
  match find_by_id db.collections cid with
  | none => (db, some .notFound)
  | some c =>
    match (linksOf db ty).find?
        (fun l => l.collection_id == cid && l.item_id == iid) with
    | none => (db, some .itemNotFound)
    | some _ =>
      (withCollections
        (setLinks db ty
          ((linksOf db ty).eraseP
            (fun l => l.collection_id == cid && l.item_id == iid)))
        (replaceFirstById db.collections cid
          { c with item_count := max 0 (c.item_count - 1) }), none)

/-- The `limit`/`offset` clauses attached to each bucket query (dao.py):
attached only when the Python value is truthy (non-`None`, nonzero), and
executed with SQL semantics (OFFSET skips before LIMIT caps). -/

def paginate (l : List Link) (limit offset : Option Nat) : List Link :=
  let l1 :=
    match offset with
    | none => l
    | some o => if o ≠ 0 then l.drop o else l
  match limit with
  | none => l1
  | some k => if k ≠ 0 then l1.take k else l1

/-- One bucket of `get_collection_items`: the collection's links in that
table, paginated, with links whose referenced item is missing from the
catalog silently skipped (`if link.dashboard` etc.), projected to item
ids. -/

def bucketItems (links : List Link) (catalog : List Nat) (cid : Nat)
    (limit offset : Option Nat) : List Nat :=
  ((paginate (links.filter (fun l => l.collection_id == cid)) limit offset).filter
    (fun l => catalog.contains l.item_id)).map (fun l => l.item_id)

/-- The dictionary returned by `get_collection_items`. -/

structure ItemsResult where
  dashboards : List Nat
  charts : List Nat
  datasets : List Nat
  total_count : Nat
deriving Repr, DecidableEq

/-- Embeds `CollectionDAO.get_collection_items` (dao.py lines 489-597): a bucket
is populated when no `item_type` filter is given or it matches; the
`total_count` is computed at the end from the three buckets just built. -/

def get_collection_items (db : DB) (cid : Nat) (item_type : Option ItemType)
    (limit offset : Option Nat) : Except CErr ItemsResult :=
  match find_by_id db.collections cid with
  | none => .error .notFound
  | some _ =>
    let d := if item_type = none ∨ item_type = some .dashboard then
        bucketItems db.dashLinks db.dashboards cid limit offset else []
    let ch := if item_type = none ∨ item_type = some .chart then
        bucketItems db.chartLinks db.charts cid limit offset else []
    let ds := if item_type = none ∨ item_type = some .dataset then
        bucketItems db.datasetLinks db.datasets cid limit offset else []
    .ok ⟨d, ch, ds, d.length + ch.length + ds.length⟩

/-- A two-dashboard store used to exhibit that `total_count` counts the
returned buckets, not the underlying link rows. -/

def itemsDemoDB : DB :=
  { collections := [⟨1, 1, "a", "a", none, none, false, 2⟩]
    dashLinks := [⟨1, 10⟩, ⟨1, 11⟩]
    chartLinks := []
    datasetLinks := []
    dashboards := [10, 11]
    charts := []
    datasets := [] }

/-- Name order used by the `order_by(SpCollection.name)` clauses. -/

def nameLe (a b : Collection) : Prop := a.name ≤ b.name

instance : DecidableRel nameLe :=
  fun a b => inferInstanceAs (Decidable (a.name ≤ b.name))

instance : IsTotal Collection nameLe := ⟨fun a b => le_total a.name b.name⟩

instance : IsTrans Collection nameLe := ⟨fun _ _ _ hab hbc => le_trans hab hbc⟩

/-- Sorts a result set as `ORDER BY name` does. -/

def orderByName (l : List Collection) : List Collection :=
  List.insertionSort nameLe l

/-- Embeds `CollectionDAO.find_root_collections` (dao.py lines 64-72). -/

def find_root_collections (store : List Collection) : List Collection :=
  orderByName (store.filter (fun c => c.parent_id == none))

/-- Embeds `CollectionDAO.find_children` (dao.py lines 74-82). -/

def find_children (store : List Collection) (pid : Nat) : List Collection :=
  orderByName (store.filter (fun c => c.parent_id == some pid))

/-- Embeds `CollectionDAO.delete_collection` (dao.py lines 259-289):
re-parent every direct child of the collection to the collection's own
parent, then delete the row fetched by `find_by_id`.  Each re-parenting
assignment `child.parent_id = collection.parent_id` fires
`SpCollection.validate_parent_id` (models.py lines 144-149), which raises
`ValueError` when the new parent id equals the child's own id; the
surrounding `except` block then rolls the session back, so the store is
unchanged and the error propagates.  Checking every child before mutating
is observationally equivalent to the source's mutate-then-rollback loop,
because the rollback discards the mutations made before the raise. -/

def delete_collection (store : List Collection) (cid : Nat) :
    List Collection × Except CErr Bool :=
  match find_by_id store cid with
  | none => (store, .ok false)
  | some c =>
    if (find_children store cid).any (fun x => c.parent_id == some x.id) then
      (store, .error .validationError)
    else
      ((store.map (fun x =>
          if x.parent_id = some cid then { x with parent_id := c.parent_id }
          else x)).eraseP (fun x => x.id == cid), .ok true)

/-- The node dictionary built by `build_tree_node` in `get_tree`. -/

structure TreeNode where
  id : Nat
  uuid : Nat
  name : String
  slug : String
  description : Option String
  is_official : Bool
  item_count : Int
  total_item_count : Nat
  depth : Nat
  children : List TreeNode
deriving Repr

/-- Embeds `SpCollection.total_item_count` (models.py lines 182-190): the count
of the collection's direct link rows across the three tables. -/

def total_item_count (db : DB) (c : Collection) : Nat :=
  (db.dashLinks.filter (fun l => l.collection_id == c.id)).length +
  (db.chartLinks.filter (fun l => l.collection_id == c.id)).length +
  (db.datasetLinks.filter (fun l => l.collection_id == c.id)).length

/-- Embeds `CollectionDAO.filter_by_user_permissions` (dao.py lines 623-633):
the placeholder returns its input unchanged. -/

def filter_by_user_permissions (collections : List Collection) (user : Nat)
    (perm : String) : List Collection :=
  collections

/-- Embeds `CollectionDAO.user_can_access_collection` (dao.py lines 635-645):
the placeholder returns `True`. -/

def user_can_access_collection (user : Nat) (c : Collection)
    (perm : String) : Bool :=
  true

/-- Embeds `if max_depth is None or current_depth < max_depth` (dao.py line 124). -/

def shouldRecurse (max_depth : Option Nat) (depth : Nat) : Bool :=
  match max_depth with
  | none => true
  | some m => depth < m

/-- The node dictionary of `build_tree_node` before children are
attached. -/

def baseNode (db : DB) (c : Collection) (depth : Nat)
    (children : List TreeNode) : TreeNode :=
  ⟨c.id, c.uuid, c.name, c.slug, c.description, c.is_official,
    c.item_count, total_item_count db c, depth, children⟩

mutual

/-- Embeds `build_tree_node` of `get_tree` (dao.py lines 109-135), with an
explicit recursion budget: `none` means the budget was exhausted (the
Python recursion is unbounded, so the budget is needed to make the
traversal a total function). -/
def buildNodeFuel (db : DB) (max_depth : Option Nat) (user : Option Nat) :
    Nat → Collection → Nat → Option TreeNode
  | 0, _, _ => none
  | fuel + 1, c, depth =>
    let kids0 := find_children db.collections c.id
    let kids :=
      if shouldRecurse max_depth depth then
        match user with
        | some u => filter_by_user_permissions kids0 u "view"
        | none => kids0
      else []
    match buildListFuel db max_depth user fuel kids (depth + 1) with
    | none => none
    | some childNodes => some (baseNode db c depth childNodes)
termination_by fuel c depth => (fuel, 0)

/-- The `for child in children` loop of `build_tree_node`. -/
def buildListFuel (db : DB) (max_depth : Option Nat) (user : Option Nat) :
    Nat → List Collection → Nat → Option (List TreeNode)
  | _, [], _ => some []
  | fuel, c :: cs, depth =>
    match buildNodeFuel db max_depth user fuel c depth with
    | none => none
    | some node =>
      match buildListFuel db max_depth user fuel cs depth with
      | none => none
      | some rest => some (node :: rest)
termination_by fuel cs depth => (fuel, cs.length + 1)

end

/-- The root loop of `get_tree` (dao.py lines 137-141): a root the user
cannot access is skipped, the others are built. -/

def buildRoots (db : DB) (max_depth : Option Nat) (user : Option Nat)
    (fuel : Nat) : List Collection → Option (List TreeNode)
  | [] => some []
  | r :: rs =>
    if (match user with
        | some u => ! user_can_access_collection u r "view"
        | none => false) then
      buildRoots db max_depth user fuel rs
    else
      match buildNodeFuel db max_depth user fuel r 0 with
      | none => none
      | some node =>
        match buildRoots db max_depth user fuel rs with
        | none => none
        | some rest => some (node :: rest)

/-- Embeds `CollectionDAO.get_tree` (dao.py lines 84-143), with an explicit
recursion budget.  `if root_id:` is a truthiness test, so a zero root id
falls back to all roots; a supplied but missing root id returns `[]`. -/

def get_tree (db : DB) (fuel : Nat) (root_id : Option Nat)
    (max_depth : Option Nat) (user : Option Nat) : Option (List TreeNode) :=
  match root_id with
  | some rid =>
    if rid ≠ 0 then
      match find_by_id db.collections rid with
      | none => some []
      | some c => buildRoots db max_depth user fuel [c]
    else buildRoots db max_depth user fuel (find_root_collections db.collections)
  | none => buildRoots db max_depth user fuel (find_root_collections db.collections)

/-- A malformed store whose two collections point at each other: each is
the other's parent, so each is the other's child and the recursive
traversal never bottoms out. -/

def cyclicDB : DB :=
  { collections := [⟨1, 1, "a", "a", none, some 2, false, 0⟩,
                    ⟨2, 2, "b", "b", none, some 1, false, 0⟩]
    dashLinks := []
    chartLinks := []
    datasetLinks := []
    dashboards := []
    charts := []
    datasets := [] }

/-- A three-node chain a(1) ← b(2) ← c(3), used to exercise the cycle
check on `update_collection`. -/

def chainStore : List Collection :=
  [⟨1, 1, "a", "a", none, none, false, 0⟩,
   ⟨2, 2, "b", "b", none, some 1, false, 0⟩,
   ⟨3, 3, "c", "c", none, some 2, false, 0⟩]

/-- A root with one internal node holding two leaves, used to exercise
re-parenting on delete. -/

def deleteStore : List Collection :=
  [⟨1, 1, "root", "root", none, none, false, 0⟩,
   ⟨2, 2, "mid", "mid", none, some 1, false, 0⟩,
   ⟨3, 3, "kid1", "kid1", none, some 2, false, 0⟩,
   ⟨4, 4, "kid2", "kid2", none, some 2, false, 0⟩]

/-- A one-collection state whose catalog holds dashboard 42, used to
exercise the membership operations. -/

def membershipDB : DB :=
  { collections := [⟨5, 5, "s", "s", none, none, false, 0⟩]
    dashLinks := []
    chartLinks := []
    datasetLinks := []
    dashboards := [42]
    charts := []
    datasets := [] }

/-- Like `membershipDB` after dashboard 42 was linked. -/

def membershipDB2 : DB :=
  { collections := [⟨5, 5, "s", "s", none, none, false, 1⟩]
    dashLinks := [⟨5, 42⟩]
    chartLinks := []
    datasetLinks := []
    dashboards := [42]
    charts := []
    datasets := [] }

/-- A two-root forest (roots named beta and alpha, one child), used to
exercise the depth-0 tree read. -/

def forestDB : DB :=
  { collections := [⟨1, 1, "beta", "beta", none, none, false, 0⟩,
                    ⟨2, 2, "alpha", "alpha", none, none, false, 0⟩,
                    ⟨3, 3, "kid", "kid", none, some 1, false, 0⟩]
    dashLinks := []
    chartLinks := []
    datasetLinks := []
    dashboards := []
    charts := []
    datasets := [] }

theorem find_by_id_mem {store : List Collection} {cid : Nat} {c : Collection}
    (h : find_by_id store cid = some c) : c ∈ store :=
  List.mem_of_find?_eq_some h

theorem find_by_id_id {store : List Collection} {cid : Nat} {c : Collection}
    (h : find_by_id store cid = some c) : c.id = cid := by
  have hp := List.find?_some h
  simpa using hp

theorem mem_storeIds_of_find {store : List Collection} {cid : Nat} {c : Collection}
    (h : find_by_id store cid = some c) : cid ∈ storeIds store := by
  have hm : c ∈ store := find_by_id_mem h
  have hid : c.id = cid := find_by_id_id h
  simp only [storeIds, List.mem_toFinset, List.mem_map]
  exact ⟨c, hm, hid⟩

theorem mem_storeIds_of_parentStep {store : List Collection} {x q : Nat}
    (h : parentStep store x = some q) : x ∈ storeIds store := by
  unfold parentStep at h
  cases hf : find_by_id store x with
  | none => rw [hf] at h; cases h
  | some p => exact mem_storeIds_of_find hf

theorem sdiff_insert_card_lt {s visited : Finset Nat} {cur : Nat}
    (hmem : cur ∈ s) (hv : cur ∉ visited) :
    (s \ insert cur visited).card < (s \ visited).card := by
  apply Finset.card_lt_card
  constructor
  · intro x hx
    rcases Finset.mem_sdiff.mp hx with ⟨hx1, hx2⟩
    exact Finset.mem_sdiff.mpr ⟨hx1, fun hvv => hx2 (Finset.mem_insert_of_mem hvv)⟩
  · intro hcon
    have hcur : cur ∈ s \ visited := Finset.mem_sdiff.mpr ⟨hmem, hv⟩
    have := hcon hcur
    rcases Finset.mem_sdiff.mp this with ⟨_, h2⟩
    exact h2 (Finset.mem_insert_self cur visited)

theorem walkParents_zero (store : List Collection) (selfId : Nat)
    (visited : Finset Nat) : walkParents store selfId visited 0 = false := by
  rw [walkParents]; simp

theorem walkParents_visited {store : List Collection} {selfId : Nat}
    {visited : Finset Nat} {cur : Nat} (h0 : cur ≠ 0) (hv : cur ∈ visited) :
    walkParents store selfId visited cur = true := by
  rw [walkParents, if_neg h0, if_pos hv]

theorem walkParents_self {store : List Collection} {selfId : Nat}
    {visited : Finset Nat} {cur : Nat} (h0 : cur ≠ 0) (hv : cur ∉ visited)
    (hs : cur = selfId) : walkParents store selfId visited cur = true := by
  rw [walkParents, if_neg h0, if_neg hv, if_pos hs]

theorem walkParents_step {store : List Collection} {selfId : Nat}
    {visited : Finset Nat} {cur : Nat} (h0 : cur ≠ 0) (hv : cur ∉ visited)
    (hs : cur ≠ selfId) :
    walkParents store selfId visited cur =
      match parentStep store cur with
      | none => false
      | some q => walkParents store selfId (insert cur visited) q := by
  rw [walkParents, if_neg h0, if_neg hv, if_neg hs]
  split <;> rename_i heq <;> rw [heq]

theorem walkParentsFuel_succ (store : List Collection) (selfId fuel : Nat)
    (visited : Finset Nat) (cur : Nat) :
    walkParentsFuel store selfId (fuel + 1) visited cur =
      if cur = 0 then some false
      else if cur ∈ visited then some true
      else if cur = selfId then some true
      else
        match parentStep store cur with
        | none => some false
        | some q => walkParentsFuel store selfId fuel (insert cur visited) q := rfl

/-- The fueled walk agrees with the walk whenever it finishes. -/

theorem walkParentsFuel_eq {store : List Collection} {selfId : Nat} :
    ∀ {fuel : Nat} {visited : Finset Nat} {cur : Nat} {b : Bool},
      walkParentsFuel store selfId fuel visited cur = some b →
      walkParents store selfId visited cur = b := by
  intro fuel
  induction fuel with
  | zero => intro visited cur b h; simp [walkParentsFuel] at h
  | succ n ih =>
    intro visited cur b h
    rw [walkParentsFuel_succ] at h
    by_cases h0 : cur = 0
    · rw [if_pos h0] at h
      rw [h0, walkParents_zero]
      exact Option.some_inj.mp h
    · rw [if_neg h0] at h
      by_cases hv : cur ∈ visited
      · rw [if_pos hv] at h
        rw [walkParents_visited h0 hv]
        exact Option.some_inj.mp h
      · rw [if_neg hv] at h
        by_cases hs : cur = selfId
        · rw [if_pos hs] at h
          rw [walkParents_self h0 hv hs]
          exact Option.some_inj.mp h
        · rw [if_neg hs] at h
          rw [walkParents_step h0 hv hs]
          cases hstep : parentStep store cur with
          | none => rw [hstep] at h; exact Option.some_inj.mp h
          | some q => rw [hstep] at h; exact ih h

/-- Budget `|storeIds \ visited| + 1` always suffices: the loop of
`has_cycle_with_parent` terminates on every store, including stores whose
parent pointers already form a cycle. -/

theorem walkParentsFuel_isSome (store : List Collection) (selfId : Nat) :
    ∀ (n : Nat) (visited : Finset Nat) (cur : Nat),
      (storeIds store \ visited).card ≤ n →
      (walkParentsFuel store selfId (n + 1) visited cur).isSome = true := by
  intro n
  induction n with
  | zero =>
    intro visited cur hcard
    rw [walkParentsFuel_succ]
    by_cases h0 : cur = 0
    · rw [if_pos h0]; rfl
    · rw [if_neg h0]
      by_cases hv : cur ∈ visited
      · rw [if_pos hv]; rfl
      · rw [if_neg hv]
        by_cases hs : cur = selfId
        · rw [if_pos hs]; rfl
        · rw [if_neg hs]
          cases hstep : parentStep store cur with
          | none => rfl
          | some q =>
            exfalso
            have hmem : cur ∈ storeIds store := mem_storeIds_of_parentStep hstep
            have : cur ∈ storeIds store \ visited := Finset.mem_sdiff.mpr ⟨hmem, hv⟩
            have hpos : 0 < (storeIds store \ visited).card :=
              Finset.card_pos.mpr ⟨cur, this⟩
            omega
  | succ m ih =>
    intro visited cur hcard
    rw [walkParentsFuel_succ]
    by_cases h0 : cur = 0
    · rw [if_pos h0]; rfl
    · rw [if_neg h0]
      by_cases hv : cur ∈ visited
      · rw [if_pos hv]; rfl
      · rw [if_neg hv]
        by_cases hs : cur = selfId
        · rw [if_pos hs]; rfl
        · rw [if_neg hs]
          cases hstep : parentStep store cur with
          | none => rfl
          | some q =>
            apply ih
            have hmem : cur ∈ storeIds store := mem_storeIds_of_parentStep hstep
            have := sdiff_insert_card_lt hmem hv
            omega

/-- If the parent chain from `x` reaches `selfId`, the walk reports a
cycle, whatever ids were already visited. -/

theorem walkParents_true_of_chain {store : List Collection} {selfId : Nat}
    (hself : selfId ≠ 0) :
    ∀ (n : Nat) (x : Nat) (visited : Finset Nat),
      chainN store n x = some selfId →
      walkParents store selfId visited x = true := by
  intro n
  induction n with
  | zero =>
    intro x visited h
    have hx : x = selfId := Option.some_inj.mp h
    subst hx
    by_cases hv : x ∈ visited
    · exact walkParents_visited hself hv
    · exact walkParents_self hself hv rfl
  | succ m ih =>
    intro x visited h
    simp only [chainN] at h
    cases hcs : chainStep store x with
    | none => rw [hcs] at h; cases h
    | some y =>
      rw [hcs] at h
      have hx0 : x ≠ 0 := by
        intro hx; rw [hx] at hcs; simp [chainStep] at hcs
      by_cases hv : x ∈ visited
      · exact walkParents_visited hx0 hv
      · by_cases hs : x = selfId
        · exact walkParents_self hx0 hv hs
        · rw [walkParents_step hx0 hv hs]
          have hps : parentStep store x = some y := by
            unfold chainStep at hcs
            rw [if_neg hx0] at hcs
            exact hcs
          rw [hps]
          exact ih y (insert x visited) h

/-- If `c.id` lies on the parent chain from `pid` (or `pid = c.id`), then
`has_cycle_with_parent` reports a cycle. -/

theorem has_cycle_of_ancestor {store : List Collection} {c : Collection}
    {pid : Nat} (hid : c.id ≠ 0)
    (h : pid = c.id ∨ isAncestor store c.id pid) :
    has_cycle_with_parent store c pid = true := by
  unfold has_cycle_with_parent
  by_cases hp : pid = c.id
  · rw [if_pos hp]
  · rw [if_neg hp]
    rcases h with h | ⟨n, hchain⟩
    · exact absurd h hp
    · exact walkParents_true_of_chain hid n pid ∅ hchain

/-- C1: for every existing collection (nonzero id, current parent differing
from the requested one), an update whose new parent id is the collection
itself or any node whose parent chain contains the collection fails with
`CycleDetected` and returns the store unchanged. -/

theorem update_cycle_detected (store : List Collection) (cid pid : Nat)
    (c : Collection)
    (hfind : find_by_id store cid = some c)
    (hid : cid ≠ 0)
    (hchange : c.parent_id ≠ some pid)
    (hanc : pid = cid ∨ isAncestor store cid pid) :
    update_collection store cid none none none (some pid) none =
      (store, some CErr.cycleDetected) := by
  have hcid : c.id = cid := find_by_id_id hfind
  have hpid0 : pid ≠ 0 := by
    rcases hanc with h | ⟨n, hchain⟩
    · rw [h]; exact hid
    · cases n with
      | zero =>
        have : pid = cid := Option.some_inj.mp hchain
        rw [this]; exact hid
      | succ m =>
        intro hp
        rw [hp] at hchain
        simp [chainN, chainStep] at hchain
  have hcycle : has_cycle_with_parent store c pid = true := by
    apply has_cycle_of_ancestor
    · rw [hcid]; exact hid
    · rw [hcid]; exact hanc
  have hpc : parentCycleCheck store c (some pid) = true := by
    show (if some pid ≠ c.parent_id then
            if pid ≠ 0 then ! can_be_moved_to store c (some pid) else false
          else false) = true
    rw [if_pos (Ne.symm hchange), if_pos hpid0]
    show (! if pid = c.id then false else ! has_cycle_with_parent store c pid) = true
    by_cases hp : pid = c.id
    · rw [if_pos hp]; rfl
    · rw [if_neg hp, hcycle]; rfl
  have hsc : slugConflictCheck store cid c none = false := rfl
  simp only [update_collection, hfind, hsc, hpc]
  simp

theorem applyName_frame {c c1 : Collection} {a : Option String}
    (h : applyName c a = .ok c1) :
    c1.id = c.id ∧ c1.uuid = c.uuid ∧ c1.slug = c.slug ∧
    c1.description = c.description ∧ c1.parent_id = c.parent_id ∧
    c1.is_official = c.is_official ∧ c1.item_count = c.item_count := by
  cases a with
  | none =>
    simp only [applyName] at h
    have := Except.ok.inj h
    subst this
    exact ⟨rfl, rfl, rfl, rfl, rfl, rfl, rfl⟩
  | some v =>
    simp only [applyName] at h
    split_ifs at h
    have := Except.ok.inj h
    subst this
    exact ⟨rfl, rfl, rfl, rfl, rfl, rfl, rfl⟩

theorem applySlug_frame {c c1 : Collection} {a : Option String}
    (h : applySlug c a = .ok c1) :
    c1.id = c.id ∧ c1.uuid = c.uuid ∧ c1.name = c.name ∧
    c1.description = c.description ∧ c1.parent_id = c.parent_id ∧
    c1.is_official = c.is_official ∧ c1.item_count = c.item_count := by
  cases a with
  | none =>
    simp only [applySlug] at h
    have := Except.ok.inj h
    subst this
    exact ⟨rfl, rfl, rfl, rfl, rfl, rfl, rfl⟩
  | some v =>
    simp only [applySlug] at h
    split_ifs at h
    have := Except.ok.inj h
    subst this
    exact ⟨rfl, rfl, rfl, rfl, rfl, rfl, rfl⟩

theorem applyDescription_frame {c c1 : Collection} {a : Option String}
    (h : applyDescription c a = .ok c1) :
    c1.id = c.id ∧ c1.uuid = c.uuid ∧ c1.name = c.name ∧
    c1.slug = c.slug ∧ c1.parent_id = c.parent_id ∧
    c1.is_official = c.is_official ∧ c1.item_count = c.item_count := by
  cases a with
  | none =>
    simp only [applyDescription] at h
    have := Except.ok.inj h
    subst this
    exact ⟨rfl, rfl, rfl, rfl, rfl, rfl, rfl⟩
  | some v =>
    simp only [applyDescription] at h
    split_ifs at h
    have := Except.ok.inj h
    subst this
    exact ⟨rfl, rfl, rfl, rfl, rfl, rfl, rfl⟩

theorem applyParent_frame {c c1 : Collection} {a : Option Nat}
    (h : applyParent c a = .ok c1) :
    c1.id = c.id ∧ c1.uuid = c.uuid ∧ c1.name = c.name ∧
    c1.slug = c.slug ∧ c1.description = c.description ∧
    c1.is_official = c.is_official ∧ c1.item_count = c.item_count := by
  cases a with
  | none =>
    simp only [applyParent] at h
    have := Except.ok.inj h
    subst this
    exact ⟨rfl, rfl, rfl, rfl, rfl, rfl, rfl⟩
  | some v =>
    simp only [applyParent] at h
    split_ifs at h
    have := Except.ok.inj h
    subst this
    exact ⟨rfl, rfl, rfl, rfl, rfl, rfl, rfl⟩

theorem applyOfficial_frame {c c1 : Collection} {a : Option Bool}
    (h : applyOfficial c a = .ok c1) :
    c1.id = c.id ∧ c1.uuid = c.uuid ∧ c1.name = c.name ∧
    c1.slug = c.slug ∧ c1.description = c.description ∧
    c1.parent_id = c.parent_id ∧ c1.item_count = c.item_count := by
  cases a with
  | none =>
    simp only [applyOfficial] at h
    have := Except.ok.inj h
    subst this
    exact ⟨rfl, rfl, rfl, rfl, rfl, rfl, rfl⟩
  | some v =>
    simp only [applyOfficial] at h
    have := Except.ok.inj h
    subst this
    exact ⟨rfl, rfl, rfl, rfl, rfl, rfl, rfl⟩

/-- A successful field-update block preserves id, uuid and item-count, and
every unsupplied field keeps its prior value. -/

theorem applyUpdates_frame {c c2 : Collection}
    {name slug description : Option String} {parent_id : Option Nat}
    {is_official : Option Bool}
    (h : applyUpdates c name slug description parent_id is_official = .ok c2) :
    c2.id = c.id ∧ c2.uuid = c.uuid ∧ c2.item_count = c.item_count ∧
    (name = none → c2.name = c.name) ∧
    (slug = none → c2.slug = c.slug) ∧
    (description = none → c2.description = c.description) ∧
    (parent_id = none → c2.parent_id = c.parent_id) ∧
    (is_official = none → c2.is_official = c.is_official) := by
  unfold applyUpdates at h
  split at h
  · simp at h
  · rename_i d1 h1
    split at h
    · simp at h
    · rename_i d2 h2
      split at h
      · simp at h
      · rename_i d3 h3
        split at h
        · simp at h
        · rename_i d4 h4
          obtain ⟨f1a, f1b, f1c, f1d, f1e, f1f, f1g⟩ := applyName_frame h1
          obtain ⟨f2a, f2b, f2c, f2d, f2e, f2f, f2g⟩ := applySlug_frame h2
          obtain ⟨f3a, f3b, f3c, f3d, f3e, f3f, f3g⟩ := applyDescription_frame h3
          obtain ⟨f4a, f4b, f4c, f4d, f4e, f4f, f4g⟩ := applyParent_frame h4
          obtain ⟨f5a, f5b, f5c, f5d, f5e, f5f, f5g⟩ := applyOfficial_frame h
          refine ⟨by omega, by omega, ?_, ?_, ?_, ?_, ?_, ?_⟩
          · rw [f5g, f4g, f3g, f2g, f1g]
          · intro hn
            subst hn
            simp only [applyName] at h1
            have hd1 : c = d1 := Except.ok.inj h1
            rw [f5c, f4c, f3c, f2c, ← hd1]
          · intro hn
            subst hn
            simp only [applySlug] at h2
            have hd2 : d1 = d2 := Except.ok.inj h2
            rw [f5d, f4d, f3d, ← hd2, f1c]
          · intro hn
            subst hn
            simp only [applyDescription] at h3
            have hd3 : d2 = d3 := Except.ok.inj h3
            rw [f5e, f4e, ← hd3, f2d, f1d]
          · intro hn
            subst hn
            simp only [applyParent] at h4
            have hd4 : d3 = d4 := Except.ok.inj h4
            rw [f5f, ← hd4, f3e, f2e, f1e]
          · intro hn
            subst hn
            simp only [applyOfficial] at h
            have hd5 : d4 = c2 := Except.ok.inj h
            rw [← hd5, f4f, f3f, f2f, f1f]

theorem mem_replaceFirstById_of_ne {store : List Collection} {cid : Nat}
    {c2 x : Collection} (hx : x ∈ store) (hne : x.id ≠ cid) :
    x ∈ replaceFirstById store cid c2 := by
  induction store with
  | nil => cases hx
  | cons y ys ih =>
    simp only [replaceFirstById]
    by_cases hy : y.id = cid
    · rw [if_pos hy]
      rcases List.mem_cons.mp hx with hxy | hxs
      · exact absurd (hxy ▸ hy) hne
      · exact List.mem_cons_of_mem _ hxs
    · rw [if_neg hy]
      rcases List.mem_cons.mp hx with hxy | hxs
      · rw [hxy]; exact List.mem_cons_self _ _
      · exact List.mem_cons_of_mem _ (ih hxs)

theorem find_replaceFirstById {store : List Collection} {cid : Nat}
    {c c2 : Collection} (hfind : find_by_id store cid = some c)
    (hid : c2.id = cid) :
    find_by_id (replaceFirstById store cid c2) cid = some c2 := by
  induction store with
  | nil => simp [find_by_id] at hfind
  | cons y ys ih =>
    simp only [replaceFirstById]
    by_cases hy : y.id = cid
    · rw [if_pos hy]
      simp [find_by_id, List.find?, hid]
    · rw [if_neg hy]
      simp only [find_by_id, List.find?] at hfind ⊢
      rw [show (y.id == cid) = false by simp [hy]] at hfind ⊢
      exact ih hfind

/-- C9: `update_collection` has partial-update semantics: after a
successful update, every field not supplied keeps its prior value, and
rows other than the updated one are untouched. -/

theorem update_partial_semantics (store : List Collection) (cid : Nat)
    (c : Collection) (name slug description : Option String)
    (parent_id : Option Nat) (is_official : Option Bool)
    (st2 : List Collection)
    (hfind : find_by_id store cid = some c)
    (hok : update_collection store cid name slug description parent_id
             is_official = (st2, none)) :
    ∃ c2, find_by_id st2 cid = some c2 ∧
      (name = none → c2.name = c.name) ∧
      (slug = none → c2.slug = c.slug) ∧
      (description = none → c2.description = c.description) ∧
      (parent_id = none → c2.parent_id = c.parent_id) ∧
      (is_official = none → c2.is_official = c.is_official) ∧
      (∀ x ∈ store, x.id ≠ cid → x ∈ st2) := by
  simp only [update_collection, hfind] at hok
  split at hok
  · simp at hok
  · split at hok
    · simp at hok
    · split at hok
      · simp at hok
      · rename_i c2 happ
        split at hok
        · simp at hok
        · have hst : st2 = replaceFirstById store cid c2 :=
            (congrArg Prod.fst hok).symm
          obtain ⟨hfid, _, _, hn, hs, hd, hp, ho⟩ := applyUpdates_frame happ
          have hc2id : c2.id = cid := by rw [hfid]; exact find_by_id_id hfind
          refine ⟨c2, ?_, hn, hs, hd, hp, ho, ?_⟩
          · rw [hst]; exact find_replaceFirstById hfind hc2id
          · intro x hx hne
            rw [hst]
            exact mem_replaceFirstById_of_ne hx hne

theorem eraseP_id_eq_filter {l : List Collection} {cid : Nat}
    (h : (l.map (fun c => c.id)).Nodup) :
    l.eraseP (fun x => x.id == cid) = l.filter (fun x => x.id != cid) := by
  induction l with
  | nil => rfl
  | cons y ys ih =>
    simp only [List.map_cons, List.nodup_cons] at h
    obtain ⟨hy, hys⟩ := h
    by_cases hyc : y.id = cid
    · have hb : (y.id == cid) = true := by simp [hyc]
      have hb2 : (y.id != cid) = false := by simp [hyc]
      rw [List.eraseP_cons, List.filter_cons, hb, hb2]
      simp only [cond_true, Bool.false_eq_true, if_false]
      symm
      apply List.filter_eq_self.mpr
      intro a ha
      have : a.id ≠ cid := by
        intro hac
        exact hy (List.mem_map.mpr ⟨a, ha, by rw [hac, hyc]⟩)
      simpa using this
    · rw [List.eraseP_cons, List.filter_cons]
      have hb : (y.id == cid) = false := by simp [hyc]
      simp only [hb, cond_false]
      have hb2 : (y.id != cid) = true := by simp [hyc]
      rw [if_pos hb2, ih hys]

/-- C3: deleting a missing collection returns `false` and changes nothing;
deleting an existing collection (well-formed store: distinct ids, no
self-parent on the deleted node) removes its row, re-parents each direct
child to the deleted node's former parent, leaves no row referencing the
deleted id as parent, and leaves all other rows untouched. -/

theorem mem_find_children {store : List Collection} {cid : Nat}
    {x : Collection} :
    x ∈ find_children store cid ↔ x ∈ store ∧ x.parent_id = some cid := by
  unfold find_children orderByName
  rw [(List.perm_insertionSort nameLe _).mem_iff, List.mem_filter]
  simp

theorem delete_collection_spec (store : List Collection) (cid : Nat) :
    (find_by_id store cid = none →
      delete_collection store cid = (store, Except.ok false)) ∧
    (∀ c, find_by_id store cid = some c →
      ((∃ x ∈ find_children store cid, c.parent_id = some x.id) →
        delete_collection store cid =
          (store, Except.error CErr.validationError)) ∧
      ((store.map (fun x => x.id)).Nodup →
        c.parent_id ≠ some cid →
        (∀ x ∈ store, x.parent_id = some cid → c.parent_id ≠ some x.id) →
        (delete_collection store cid).2 = Except.ok true ∧
        (∀ x ∈ (delete_collection store cid).1, x.id ≠ cid) ∧
        (∀ x ∈ (delete_collection store cid).1, x.parent_id ≠ some cid) ∧
        (∀ x ∈ store, x.id ≠ cid → x.parent_id = some cid →
          { x with parent_id := c.parent_id } ∈ (delete_collection store cid).1) ∧
        (∀ x ∈ store, x.id ≠ cid → x.parent_id ≠ some cid →
          x ∈ (delete_collection store cid).1))) := by
  constructor
  · intro hnone
    simp only [delete_collection, hnone]
  · intro c hfind
    constructor
    · rintro ⟨x, hx, hpx⟩
      have hany : (find_children store cid).any
          (fun x => c.parent_id == some x.id) = true :=
        List.any_eq_true.mpr ⟨x, hx, by simp [hpx]⟩
      simp only [delete_collection, hfind, hany, if_true]
    · intro hnodup hnoself hno2
      have hany : (find_children store cid).any
          (fun x => c.parent_id == some x.id) = false := by
        rw [List.any_eq_false]
        intro x hx
        have hm := mem_find_children.mp hx
        have := hno2 x hm.1 hm.2
        simp [this]
      have hdel : delete_collection store cid =
          ((store.map (fun x =>
              if x.parent_id = some cid then { x with parent_id := c.parent_id }
              else x)).eraseP (fun x => x.id == cid), Except.ok true) := by
        simp only [delete_collection, hfind, hany, Bool.false_eq_true, if_false]
      set f : Collection → Collection := fun x =>
        if x.parent_id = some cid then { x with parent_id := c.parent_id }
        else x with hf
      have hfid : ∀ x, (f x).id = x.id := by
        intro x
        by_cases hx : x.parent_id = some cid <;> simp [hf, hx]
      have hmapids : (store.map f).map (fun x => x.id) =
          store.map (fun x => x.id) := by
        rw [List.map_map]
        apply List.map_congr_left
        intro x _
        exact hfid x
      have hnodup2 : ((store.map f).map (fun x => x.id)).Nodup := by
        rw [hmapids]; exact hnodup
      have herase : (store.map f).eraseP (fun x => x.id == cid) =
          (store.map f).filter (fun x => x.id != cid) :=
        eraseP_id_eq_filter hnodup2
      rw [hdel, herase]
      refine ⟨rfl, ?_, ?_, ?_, ?_⟩
      · intro x hx
        have := List.of_mem_filter hx
        simpa using this
      · intro x hx
        have hx2 : x ∈ store.map f := List.mem_of_mem_filter hx
        obtain ⟨y, _, hxy⟩ := List.mem_map.mp hx2
        by_cases hyp : y.parent_id = some cid
        · rw [← hxy]
          have hfe : f y = { y with parent_id := c.parent_id } := by simp [hf, hyp]
          rw [hfe]
          exact hnoself
        · rw [← hxy]
          have hfe : f y = y := by simp [hf, hyp]
          rw [hfe]
          exact hyp
      · intro x hx hxid hxp
        apply List.mem_filter.mpr
        constructor
        · apply List.mem_map.mpr
          exact ⟨x, hx, by simp [hf, hxp]⟩
        · simpa using hxid
      · intro x hx hxid hxp
        apply List.mem_filter.mpr
        constructor
        · apply List.mem_map.mpr
          exact ⟨x, hx, by simp [hf, hxp]⟩
        · simpa using hxid

theorem linksOf_setLinks (db : DB) (ty : ItemType) (l : List Link) :
    linksOf (setLinks db ty l) ty = l := by
  cases ty <;> rfl

theorem collections_setLinks (db : DB) (ty : ItemType) (l : List Link) :
    (setLinks db ty l).collections = db.collections := by
  cases ty <;> rfl

theorem linksOf_withCollections (db : DB) (cs : List Collection)
    (ty : ItemType) : linksOf (withCollections db cs) ty = linksOf db ty := by
  cases ty <;> rfl

theorem collections_withCollections (db : DB) (cs : List Collection) :
    (withCollections db cs).collections = cs := rfl

/-- C4: adding an item to an existing collection that does not yet hold it
succeeds, appending exactly one link row and incrementing the cached
`item_count` by exactly 1; immediately adding the same item again fails
with `ItemAlreadyExists` and leaves the store unchanged, so the count has
risen by 1 overall, not 2. -/

theorem add_item_twice (db : DB) (cid : Nat) (ty : ItemType) (iid : Nat)
    (c : Collection)
    (hfind : find_by_id db.collections cid = some c)
    (hnew : item_exists_in_collection db cid ty iid = false) :
    (add_item_to_collection db cid ty iid).2 = none ∧
    linksOf (add_item_to_collection db cid ty iid).1 ty =
      linksOf db ty ++ [⟨cid, iid⟩] ∧
    find_by_id (add_item_to_collection db cid ty iid).1.collections cid =
      some { c with item_count := c.item_count + 1 } ∧
    add_item_to_collection (add_item_to_collection db cid ty iid).1 cid ty iid =
      ((add_item_to_collection db cid ty iid).1, some CErr.itemAlreadyExists) := by
  have hadd : add_item_to_collection db cid ty iid =
      (withCollections (setLinks db ty (linksOf db ty ++ [⟨cid, iid⟩]))
        (replaceFirstById db.collections cid
          { c with item_count := c.item_count + 1 }), none) := by
    simp only [add_item_to_collection, hfind, hnew]
    simp
  have hcoll : (add_item_to_collection db cid ty iid).1.collections =
      replaceFirstById db.collections cid
        { c with item_count := c.item_count + 1 } := by
    rw [hadd]
    rfl
  have hlinks : linksOf (add_item_to_collection db cid ty iid).1 ty =
      linksOf db ty ++ [⟨cid, iid⟩] := by
    rw [hadd]
    show linksOf (withCollections _ _) ty = _
    rw [linksOf_withCollections, linksOf_setLinks]
  have hfind2 : find_by_id (add_item_to_collection db cid ty iid).1.collections cid =
      some { c with item_count := c.item_count + 1 } := by
    rw [hcoll]
    have hid2 : ({ c with item_count := c.item_count + 1 } : Collection).id = cid := by
      show c.id = cid
      exact find_by_id_id hfind
    exact find_replaceFirstById hfind hid2
  have hexists2 : item_exists_in_collection (add_item_to_collection db cid ty iid).1
      cid ty iid = true := by
    unfold item_exists_in_collection
    rw [hlinks, List.any_append]
    simp
  refine ⟨by rw [hadd], hlinks, hfind2, ?_⟩
  set r1 := (add_item_to_collection db cid ty iid).1 with hr1
  simp only [add_item_to_collection, hfind2, hexists2]
  simp

/-- C5: removing an item link that does not exist fails with
`ItemNotFound` and changes nothing (in particular `item_count` is
unchanged); removing an existing link deletes that link row and
decrements the cached `item_count` by 1, floored at 0, so the count never
becomes negative. -/

theorem remove_item_spec (db : DB) (cid : Nat) (ty : ItemType) (iid : Nat)
    (c : Collection)
    (hfind : find_by_id db.collections cid = some c) :
    ((linksOf db ty).find?
        (fun l => l.collection_id == cid && l.item_id == iid) = none →
      remove_item_from_collection db cid ty iid = (db, some CErr.itemNotFound)) ∧
    (∀ link, (linksOf db ty).find?
        (fun l => l.collection_id == cid && l.item_id == iid) = some link →
      (remove_item_from_collection db cid ty iid).2 = none ∧
      linksOf (remove_item_from_collection db cid ty iid).1 ty =
        (linksOf db ty).eraseP
          (fun l => l.collection_id == cid && l.item_id == iid) ∧
      (linksOf (remove_item_from_collection db cid ty iid).1 ty).length =
        (linksOf db ty).length - 1 ∧
      find_by_id (remove_item_from_collection db cid ty iid).1.collections cid =
        some { c with item_count := max 0 (c.item_count - 1) } ∧
      0 ≤ max 0 (c.item_count - 1)) := by
  constructor
  · intro hnone
    simp only [remove_item_from_collection, hfind, hnone]
  · intro link hsome
    have hrem : remove_item_from_collection db cid ty iid =
        (withCollections
          (setLinks db ty
            ((linksOf db ty).eraseP
              (fun l => l.collection_id == cid && l.item_id == iid)))
          (replaceFirstById db.collections cid
            { c with item_count := max 0 (c.item_count - 1) }), none) := by
      simp only [remove_item_from_collection, hfind, hsome]
    have hcoll : (remove_item_from_collection db cid ty iid).1.collections =
        replaceFirstById db.collections cid
          { c with item_count := max 0 (c.item_count - 1) } := by
      rw [hrem]
      rfl
    have hlinks : linksOf (remove_item_from_collection db cid ty iid).1 ty =
        (linksOf db ty).eraseP
          (fun l => l.collection_id == cid && l.item_id == iid) := by
      rw [hrem]
      show linksOf (withCollections _ _) ty = _
      rw [linksOf_withCollections, linksOf_setLinks]
    have hmem : link ∈ linksOf db ty := List.mem_of_find?_eq_some hsome
    have hp := List.find?_some hsome
    refine ⟨by rw [hrem], hlinks, ?_, ?_, ?_⟩
    · rw [hlinks]
      exact List.length_eraseP_of_mem hmem hp
    · rw [hcoll]
      have hid2 : ({ c with item_count := max 0 (c.item_count - 1) } : Collection).id = cid := by
        show c.id = cid
        exact find_by_id_id hfind
      exact find_replaceFirstById hfind hid2
    · exact le_max_left 0 _

/-- C7: for every existing collection, `total_count` equals the sum of the
sizes of the three buckets actually returned (after per-bucket pagination
and after skipping links whose item is missing).  It is not the true
number of link rows: with two linked dashboards and `limit = 1` the call
returns `total_count = 1` while the collection has 2 link rows. -/

theorem get_items_total_count :
    (∀ (db : DB) (cid : Nat) (c : Collection) (ity : Option ItemType)
        (lim off : Option Nat) (r : ItemsResult),
      find_by_id db.collections cid = some c →
      get_collection_items db cid ity lim off = .ok r →
      r.total_count =
        r.dashboards.length + r.charts.length + r.datasets.length) ∧
    (∃ r : ItemsResult,
      get_collection_items itemsDemoDB 1 none (some 1) none = .ok r ∧
      r.total_count = 1 ∧
      (itemsDemoDB.dashLinks.filter
        (fun l => l.collection_id == 1)).length = 2) := by
  constructor
  · intro db cid c ity lim off r hfind hok
    simp only [get_collection_items, hfind] at hok
    have := Except.ok.inj hok
    rw [← this]
  · exact ⟨⟨[10], [], [], 1⟩, rfl, rfl, by decide⟩

theorem buildNodeFuel_zero (db : DB) (md user : Option Nat)
    (c : Collection) (depth : Nat) :
    buildNodeFuel db md user 0 c depth = none := by
  conv_lhs => rw [buildNodeFuel.eq_def]

theorem buildNodeFuel_succ (db : DB) (md user : Option Nat) (fuel : Nat)
    (c : Collection) (depth : Nat) :
    buildNodeFuel db md user (fuel + 1) c depth =
      match buildListFuel db md user fuel
          (if shouldRecurse md depth then
            match user with
            | some u => filter_by_user_permissions
                (find_children db.collections c.id) u "view"
            | none => find_children db.collections c.id
          else []) (depth + 1) with
      | none => none
      | some childNodes => some (baseNode db c depth childNodes) := by
  conv_lhs => rw [buildNodeFuel.eq_def]

theorem buildListFuel_nil (db : DB) (md user : Option Nat) (fuel depth : Nat) :
    buildListFuel db md user fuel [] depth = some [] := by
  conv_lhs => rw [buildListFuel.eq_def]

theorem buildListFuel_cons (db : DB) (md user : Option Nat) (fuel : Nat)
    (c : Collection) (cs : List Collection) (depth : Nat) :
    buildListFuel db md user fuel (c :: cs) depth =
      match buildNodeFuel db md user fuel c depth with
      | none => none
      | some node =>
        match buildListFuel db md user fuel cs depth with
        | none => none
        | some rest => some (node :: rest) := by
  conv_lhs => rw [buildListFuel.eq_def]

theorem buildRoots_nil (db : DB) (md user : Option Nat) (fuel : Nat) :
    buildRoots db md user fuel [] = some [] := rfl

theorem buildRoots_cons (db : DB) (md user : Option Nat) (fuel : Nat)
    (r : Collection) (rs : List Collection) :
    buildRoots db md user fuel (r :: rs) =
      if (match user with
          | some u => ! user_can_access_collection u r "view"
          | none => false) then
        buildRoots db md user fuel rs
      else
        match buildNodeFuel db md user fuel r 0 with
        | none => none
        | some node =>
          match buildRoots db md user fuel rs with
          | none => none
          | some rest => some (node :: rest) := by
  conv_lhs => rw [buildRoots.eq_def]

theorem buildFuel_user_indep (db : DB) (md : Option Nat)
    (u1 u2 : Option Nat) :
    ∀ n, (∀ c depth, buildNodeFuel db md u1 n c depth =
            buildNodeFuel db md u2 n c depth) ∧
         (∀ l depth, buildListFuel db md u1 n l depth =
            buildListFuel db md u2 n l depth) := by
  intro n
  induction n with
  | zero =>
    constructor
    · intro c depth
      rw [buildNodeFuel_zero, buildNodeFuel_zero]
    · intro l depth
      induction l with
      | nil => rw [buildListFuel_nil, buildListFuel_nil]
      | cons c cs ihl =>
        rw [buildListFuel_cons, buildListFuel_cons,
          buildNodeFuel_zero, buildNodeFuel_zero]
  | succ m ih =>
    obtain ⟨ihn, ihl⟩ := ih
    have hnode : ∀ c depth, buildNodeFuel db md u1 (m + 1) c depth =
        buildNodeFuel db md u2 (m + 1) c depth := by
      intro c depth
      rw [buildNodeFuel_succ, buildNodeFuel_succ]
      cases u1 <;> cases u2 <;>
        simp only [filter_by_user_permissions] <;>
        rw [ihl]
    refine ⟨hnode, ?_⟩
    intro l
    induction l with
    | nil => intro depth; rw [buildListFuel_nil, buildListFuel_nil]
    | cons c cs ihl2 =>
      intro depth
      rw [buildListFuel_cons, buildListFuel_cons, hnode, ihl2]

theorem buildRoots_user_indep (db : DB) (md : Option Nat)
    (u1 u2 : Option Nat) (fuel : Nat) :
    ∀ roots, buildRoots db md u1 fuel roots = buildRoots db md u2 fuel roots := by
  intro roots
  induction roots with
  | nil => rfl
  | cons r rs ih =>
    have hnode := (buildFuel_user_indep db md u1 u2 fuel).1
    rw [buildRoots_cons, buildRoots_cons, hnode, ih]
    cases u1 <;> cases u2 <;>
      simp only [user_can_access_collection, Bool.not_true]

/-- C10: supplying a user to `get_tree` never changes its result, for any
store, root, depth bound and recursion budget, because the permission
filter returns its input unchanged and the per-root access check returns
`True` for every user and collection. -/

theorem get_tree_user_independent (db : DB) (fuel : Nat)
    (root_id max_depth : Option Nat) (u1 u2 : Option Nat) :
    get_tree db fuel root_id max_depth u1 =
      get_tree db fuel root_id max_depth u2 := by
  cases root_id with
  | none =>
    simp only [get_tree]
    exact buildRoots_user_indep db max_depth u1 u2 fuel _
  | some rid =>
    simp only [get_tree]
    by_cases h : rid ≠ 0
    · rw [if_pos h, if_pos h]
      cases hf : find_by_id db.collections rid with
      | none => rfl
      | some c => exact buildRoots_user_indep db max_depth u1 u2 fuel _
    · rw [if_neg h, if_neg h]
      exact buildRoots_user_indep db max_depth u1 u2 fuel _

theorem buildNodeFuel_depth_zero (db : DB) (user : Option Nat) (n : Nat)
    (c : Collection) :
    buildNodeFuel db (some 0) user (n + 1) c 0 = some (baseNode db c 0 []) := by
  rw [buildNodeFuel_succ]
  simp [shouldRecurse, buildListFuel_nil]

theorem buildRoots_depth_zero (db : DB) (user : Option Nat) (n : Nat) :
    ∀ l, buildRoots db (some 0) user (n + 1) l =
      some (l.map (fun c => baseNode db c 0 [])) := by
  intro l
  induction l with
  | nil => rfl
  | cons r rs ih =>
    rw [buildRoots_cons, buildNodeFuel_depth_zero, ih]
    cases user <;>
      simp only [user_can_access_collection, Bool.not_true, Bool.false_eq_true,
        if_false, List.map_cons]

/-- C8: with no root id and `max_depth = 0`, `get_tree` returns exactly
the root collections (null parent), ordered by name ascending, each as a
depth-0 node with an empty children list, whatever the forest looks like
below the roots and whatever user is supplied. -/

theorem get_tree_max_depth_zero (db : DB) (user : Option Nat) (fuel : Nat)
    (hfuel : 1 ≤ fuel) :
    get_tree db fuel none (some 0) user =
      some ((find_root_collections db.collections).map
        (fun c => baseNode db c 0 [])) ∧
    List.Pairwise (fun s t : TreeNode => s.name ≤ t.name)
      ((find_root_collections db.collections).map (fun c => baseNode db c 0 [])) ∧
    (∀ t ∈ (find_root_collections db.collections).map
        (fun c => baseNode db c 0 []), t.depth = 0 ∧ t.children = []) ∧
    ((find_root_collections db.collections).map (fun c => c.id)).Perm
      ((db.collections.filter (fun c => c.parent_id == none)).map
        (fun c => c.id)) := by
  obtain ⟨m, rfl⟩ : ∃ m, fuel = m + 1 := ⟨fuel - 1, by omega⟩
  refine ⟨?_, ?_, ?_, ?_⟩
  · show buildRoots db (some 0) user (m + 1)
        (find_root_collections db.collections) = _
    exact buildRoots_depth_zero db user m _
  · have hs : List.Sorted nameLe (find_root_collections db.collections) :=
      List.sorted_insertionSort nameLe _
    exact List.pairwise_map.mpr (hs.imp (fun h => h))
  · intro t ht
    obtain ⟨c, _, rfl⟩ := List.mem_map.mp ht
    exact ⟨rfl, rfl⟩
  · have hperm : (find_root_collections db.collections).Perm
        (db.collections.filter (fun c => c.parent_id == none)) :=
      List.perm_insertionSort nameLe _
    exact hperm.map _

/-- C2: the claimed hard recursion ceiling does not exist: on a malformed
two-node store whose parent pointers form a cycle, the `get_tree`
traversal with `max_depth = None` exhausts every finite recursion budget
(`MAX_TREE_DEPTH = 10` from constants.py is never consulted by
`get_tree`), so the recursion is unbounded rather than capped at 10. -/

theorem get_tree_cycle_exhausts_any_budget :
    ∀ fuel, get_tree cyclicDB fuel (some 1) none none = none := by
  have hA : find_children cyclicDB.collections 1 =
      [⟨2, 2, "b", "b", none, some 1, false, 0⟩] := by decide
  have hB : find_children cyclicDB.collections 2 =
      [⟨1, 1, "a", "a", none, some 2, false, 0⟩] := by decide
  have key : ∀ n, ∀ depth,
      buildNodeFuel cyclicDB none none n ⟨1, 1, "a", "a", none, some 2, false, 0⟩ depth = none ∧
      buildNodeFuel cyclicDB none none n ⟨2, 2, "b", "b", none, some 1, false, 0⟩ depth = none := by
    intro n
    induction n with
    | zero =>
      intro depth
      exact ⟨buildNodeFuel_zero cyclicDB none none _ depth,
        buildNodeFuel_zero cyclicDB none none _ depth⟩
    | succ m ih =>
      intro depth
      constructor
      · rw [buildNodeFuel_succ]
        simp only [shouldRecurse, if_true]
        rw [hA, buildListFuel_cons, (ih (depth + 1)).2]
      · rw [buildNodeFuel_succ]
        simp only [shouldRecurse, if_true]
        rw [hB, buildListFuel_cons, (ih (depth + 1)).1]
  intro fuel
  have hfind : find_by_id cyclicDB.collections 1 =
      some ⟨1, 1, "a", "a", none, some 2, false, 0⟩ := by decide
  have hroots : buildRoots cyclicDB none none fuel
      [⟨1, 1, "a", "a", none, some 2, false, 0⟩] = none := by
    rw [buildRoots_cons, (key fuel 0).1]
    simp
  simp [get_tree, hfind, hroots]

/-- C6: the cycle check of `has_cycle_with_parent` is safe on every input
store, malformed ones included: its loop finishes within
`|store ids| + 1` iterations whatever the parent pointers look like (the
fueled loop agreeing with the walk), a revisited id reports a cycle, a
current id equal to the node under validation reports a cycle, and a
reached null parent reports no cycle; `has_cycle_with_parent` itself is
the self-check followed by the walk from the candidate parent. -/

theorem has_cycle_walk_spec :
    (∀ (store : List Collection) (selfId : Nat) (visited : Finset Nat)
        (cur : Nat),
      (walkParentsFuel store selfId ((storeIds store \ visited).card + 1)
        visited cur).isSome = true) ∧
    (∀ (store : List Collection) (selfId : Nat) (visited : Finset Nat)
        (cur : Nat) (b : Bool),
      walkParentsFuel store selfId ((storeIds store \ visited).card + 1)
        visited cur = some b →
      walkParents store selfId visited cur = b) ∧
    (∀ (store : List Collection) (selfId : Nat) (visited : Finset Nat)
        (cur : Nat), cur ≠ 0 → cur ∈ visited →
      walkParents store selfId visited cur = true) ∧
    (∀ (store : List Collection) (selfId : Nat) (visited : Finset Nat)
        (cur : Nat), cur ≠ 0 → cur ∉ visited → cur = selfId →
      walkParents store selfId visited cur = true) ∧
    (∀ (store : List Collection) (selfId : Nat) (visited : Finset Nat)
        (cur : Nat) (p : Collection), cur ≠ 0 → cur ∉ visited →
      cur ≠ selfId → find_by_id store cur = some p → p.parent_id = none →
      walkParents store selfId visited cur = false) ∧
    (∀ (store : List Collection) (c : Collection) (pid : Nat),
      has_cycle_with_parent store c pid =
        if pid = c.id then true else walkParents store c.id ∅ pid) := by
  refine ⟨?_, ?_, ?_, ?_, ?_, ?_⟩
  · intro store selfId visited cur
    exact walkParentsFuel_isSome store selfId _ visited cur le_rfl
  · intro store selfId visited cur b h
    exact walkParentsFuel_eq h
  · intro store selfId visited cur h0 hv
    exact walkParents_visited h0 hv
  · intro store selfId visited cur h0 hv hs
    exact walkParents_self h0 hv hs
  · intro store selfId visited cur p h0 hv hs hf hp
    rw [walkParents_step h0 hv hs]
    have hps : parentStep store cur = none := by
      simp only [parentStep, hf, hp]
    rw [hps]
  · intro store c pid
    rfl

theorem update_cycle_detected_witness :
    update_collection chainStore 1 none none none (some 3) none =
      (chainStore, some CErr.cycleDetected) ∧
    update_collection chainStore 3 none none none (some 3) none =
      (chainStore, some CErr.cycleDetected) :=
  ⟨update_cycle_detected chainStore 1 3 ⟨1, 1, "a", "a", none, none, false, 0⟩
      (by decide) (by decide) (by decide) (Or.inr ⟨2, by decide⟩),
   update_cycle_detected chainStore 3 3 ⟨3, 3, "c", "c", none, some 2, false, 0⟩
      (by decide) (by decide) (by decide) (Or.inl rfl)⟩

theorem delete_collection_spec_witness :
    delete_collection deleteStore 7 = (deleteStore, Except.ok false) ∧
    delete_collection cyclicDB.collections 1 =
      (cyclicDB.collections, Except.error CErr.validationError) ∧
    (delete_collection deleteStore 2).2 = Except.ok true ∧
    (∀ x ∈ (delete_collection deleteStore 2).1, x.id ≠ 2) ∧
    (∀ x ∈ (delete_collection deleteStore 2).1, x.parent_id ≠ some 2) ∧
    (∀ x ∈ deleteStore, x.id ≠ 2 → x.parent_id = some 2 →
      { x with parent_id := some 1 } ∈ (delete_collection deleteStore 2).1) := by
  have h1 := (delete_collection_spec deleteStore 7).1 (by decide)
  have herr := ((delete_collection_spec cyclicDB.collections 1).2
    ⟨1, 1, "a", "a", none, some 2, false, 0⟩ (by decide)).1
    ⟨⟨2, 2, "b", "b", none, some 1, false, 0⟩, by decide, by decide⟩
  have h2 := ((delete_collection_spec deleteStore 2).2
    ⟨2, 2, "mid", "mid", none, some 1, false, 0⟩ (by decide)).2
    (by decide) (by decide) (by decide)
  exact ⟨h1, herr, h2.1, h2.2.1, h2.2.2.1, h2.2.2.2.1⟩

theorem add_item_twice_witness :
    (add_item_to_collection membershipDB 5 ItemType.dashboard 42).2 = none ∧
    linksOf (add_item_to_collection membershipDB 5 ItemType.dashboard 42).1
      ItemType.dashboard = linksOf membershipDB ItemType.dashboard ++ [⟨5, 42⟩] ∧
    find_by_id (add_item_to_collection membershipDB 5 ItemType.dashboard 42).1.collections 5 =
      some ⟨5, 5, "s", "s", none, none, false, 1⟩ ∧
    add_item_to_collection
        (add_item_to_collection membershipDB 5 ItemType.dashboard 42).1
        5 ItemType.dashboard 42 =
      ((add_item_to_collection membershipDB 5 ItemType.dashboard 42).1,
        some CErr.itemAlreadyExists) :=
  add_item_twice membershipDB 5 ItemType.dashboard 42
    ⟨5, 5, "s", "s", none, none, false, 0⟩ (by decide) (by decide)

theorem remove_item_spec_witness :
    remove_item_from_collection membershipDB2 5 ItemType.chart 42 =
      (membershipDB2, some CErr.itemNotFound) ∧
    (remove_item_from_collection membershipDB2 5 ItemType.dashboard 42).2 = none ∧
    linksOf (remove_item_from_collection membershipDB2 5 ItemType.dashboard 42).1
      ItemType.dashboard = [] ∧
    find_by_id
      (remove_item_from_collection membershipDB2 5 ItemType.dashboard 42).1.collections
      5 = some ⟨5, 5, "s", "s", none, none, false, 0⟩ := by
  have hbase := remove_item_spec membershipDB2 5 ItemType.chart 42
    ⟨5, 5, "s", "s", none, none, false, 1⟩ (by decide)
  have h1 := hbase.1 (by decide)
  have hbase2 := remove_item_spec membershipDB2 5 ItemType.dashboard 42
    ⟨5, 5, "s", "s", none, none, false, 1⟩ (by decide)
  have h2 := hbase2.2 ⟨5, 42⟩ (by decide)
  exact ⟨h1, h2.1, by rw [h2.2.1]; decide, h2.2.2.2.1⟩

theorem get_items_total_count_witness :
    (⟨[10], [], [], 1⟩ : ItemsResult).total_count =
      (⟨[10], [], [], 1⟩ : ItemsResult).dashboards.length +
      (⟨[10], [], [], 1⟩ : ItemsResult).charts.length +
      (⟨[10], [], [], 1⟩ : ItemsResult).datasets.length :=
  get_items_total_count.1 itemsDemoDB 1 ⟨1, 1, "a", "a", none, none, false, 2⟩
    none (some 1) none ⟨[10], [], [], 1⟩ (by decide) rfl

theorem get_tree_max_depth_zero_witness :
    get_tree forestDB 1 none (some 0) none =
      some ((find_root_collections forestDB.collections).map
        (fun c => baseNode forestDB c 0 [])) ∧
    List.Pairwise (fun s t : TreeNode => s.name ≤ t.name)
      ((find_root_collections forestDB.collections).map
        (fun c => baseNode forestDB c 0 [])) ∧
    (∀ t ∈ (find_root_collections forestDB.collections).map
        (fun c => baseNode forestDB c 0 []), t.depth = 0 ∧ t.children = []) ∧
    ((find_root_collections forestDB.collections).map (fun c => c.id)).Perm
      ((forestDB.collections.filter (fun c => c.parent_id == none)).map
        (fun c => c.id)) :=
  get_tree_max_depth_zero forestDB none 1 (by decide)

theorem update_partial_semantics_witness :
    ∃ c2, find_by_id
        (replaceFirstById chainStore 1 ⟨1, 1, "azz", "a", none, none, false, 0⟩) 1 =
          some c2 ∧
      (some "azz" = (none : Option String) → c2.name = "a") ∧
      ((none : Option String) = none → c2.slug = "a") ∧
      ((none : Option String) = none → c2.description = none) ∧
      ((none : Option Nat) = none → c2.parent_id = none) ∧
      ((none : Option Bool) = none → c2.is_official = false) ∧
      (∀ x ∈ chainStore, x.id ≠ 1 →
        x ∈ replaceFirstById chainStore 1 ⟨1, 1, "azz", "a", none, none, false, 0⟩) := by
  have h := update_partial_semantics chainStore 1
    ⟨1, 1, "a", "a", none, none, false, 0⟩ (some "azz") none none none none
    (replaceFirstById chainStore 1 ⟨1, 1, "azz", "a", none, none, false, 0⟩)
    (by decide) (by decide)
  exact h

theorem has_cycle_walk_spec_witness :
    (walkParentsFuel chainStore 9
      ((storeIds chainStore \ ∅).card + 1) ∅ 3).isSome = true ∧
    walkParents chainStore 9 {3} 3 = true ∧
    walkParents chainStore 3 ∅ 3 = true ∧
    walkParents chainStore 9 ∅ 1 = false := by
  refine ⟨has_cycle_walk_spec.1 chainStore 9 ∅ 3, ?_, ?_, ?_⟩
  · exact has_cycle_walk_spec.2.2.1 chainStore 9 {3} 3 (by decide) (by simp)
  · exact has_cycle_walk_spec.2.2.2.1 chainStore 3 ∅ 3 (by decide) (by simp) rfl
  · exact has_cycle_walk_spec.2.2.2.2.1 chainStore 9 ∅ 1
      ⟨1, 1, "a", "a", none, none, false, 0⟩ (by decide) (by simp) (by decide)
      (by decide) rfl

end Collections
